import Mathlib

/-!
Verification of the MIB Updater / OID resolution layer of an SNMP subagent
(sonic-snmpagent).  The Python sources under `src/sonic_ax_impl/mibs` are
shallowly embedded: dictionaries become association lists, bytes/str become
`String` or `List Char`, Python exceptions become an explicit `Except` error
type, and external collaborators (the redis connector, `swsssdk.port_util`,
the JSON decoder) become function-valued parameters of the embedded state.
-/

namespace SonicSnmp

/-- Python exceptions that the embedded code can raise.  `fuelOut` is an
artifact of modelling Python's unbounded recursion with fuel; it is never
produced under the hypotheses of any theorem below. -/
inductive PyErr where
  | keyError
  | typeError
  | runtimeError
  | fuelOut
deriving DecidableEq, Repr

/-- A sub-identifier: an ordered tuple of non-negative integers (Python
tuples of ints in `rfc1213.ArpUpdater`, `rfc4292.RouteUpdater`,
`rfc4363.FdbUpdater`). -/
abbrev SubID := List Nat

/-- Python's tuple comparison `x < y`: elementwise, first difference decides,
a strict prefix is smaller. -/
def subLt : SubID → SubID → Bool
  | [], [] => false
  | [], _ :: _ => true
  | _ :: _, [] => false
  | a :: as, b :: bs => decide (a < b) || (a == b && subLt as bs)

/-- Python's tuple comparison `x <= y`, i.e. `not (y < x)`. -/
def subLe (x y : SubID) : Bool := !(subLt y x)

theorem subLt_irrefl (x : SubID) : subLt x x = false := by
  induction x with
  | nil => rfl
  | cons a as ih => simp [subLt, ih]

theorem subLt_trans :
    ∀ {x y z : SubID}, subLt x y = true → subLt y z = true → subLt x z = true := by
  intro x
  induction x with
  | nil =>
    intro y z hxy hyz
    cases y with
    | nil => simp [subLt] at hxy
    | cons b bs =>
      cases z with
      | nil => simp [subLt] at hyz
      | cons c cs => rfl
  | cons a as ih =>
    intro y z hxy hyz
    cases y with
    | nil => simp [subLt] at hxy
    | cons b bs =>
      cases z with
      | nil => simp [subLt] at hyz
      | cons c cs =>
        simp only [subLt, Bool.or_eq_true, Bool.and_eq_true, decide_eq_true_eq,
          beq_iff_eq] at hxy hyz ⊢
        rcases hxy with h1 | ⟨rfl, h1⟩
        · rcases hyz with h2 | ⟨rfl, h2⟩
          · exact Or.inl (Nat.lt_trans h1 h2)
          · exact Or.inl h1
        · rcases hyz with h2 | ⟨rfl, h2⟩
          · exact Or.inl h2
          · exact Or.inr ⟨rfl, ih h1 h2⟩

theorem subLt_connex :
    ∀ {x y : SubID}, subLt x y = false → subLt y x = false → x = y := by
  intro x
  induction x with
  | nil =>
    intro y hxy _
    cases y with
    | nil => rfl
    | cons b bs => simp [subLt] at hxy
  | cons a as ih =>
    intro y hxy hyx
    cases y with
    | nil => simp [subLt] at hyx
    | cons b bs =>
      simp only [subLt, Bool.or_eq_false_iff, Bool.and_eq_false_iff,
        decide_eq_false_iff_not, beq_eq_false_iff_ne, ne_eq] at hxy hyx
      obtain ⟨hab, h1⟩ := hxy
      obtain ⟨hba, h2⟩ := hyx
      have hEq : a = b := Nat.le_antisymm (Nat.le_of_not_lt hba) (Nat.le_of_not_lt hab)
      subst hEq
      rcases h1 with h1 | h1
      · exact absurd rfl h1
      · rcases h2 with h2 | h2
        · exact absurd rfl h2
        · exact congrArg (a :: ·) (ih h1 h2)

theorem subLt_asymm {x y : SubID} (h : subLt x y = true) : subLt y x = false := by
  cases hyx : subLt y x with
  | false => rfl
  | true =>
    have := subLt_trans h hyx
    rw [subLt_irrefl] at this
    exact absurd this (by simp)

theorem subLe_refl (x : SubID) : subLe x x = true := by
  simp [subLe, subLt_irrefl]

theorem subLe_of_subLt {x y : SubID} (h : subLt x y = true) : subLe x y = true := by
  simp [subLe, subLt_asymm h]

theorem subLt_of_not_subLe {x y : SubID} (h : subLe x y = false) : subLt y x = true := by
  simpa [subLe] using h

theorem not_subLe_of_subLt {x y : SubID} (h : subLt x y = true) : subLe y x = false := by
  simp [subLe, h]

theorem subLe_trans :
    ∀ {x y z : SubID}, subLe x y = true → subLe y z = true → subLe x z = true := by
  intro x y z hxy hyz
  simp only [subLe, Bool.not_eq_true'] at hxy hyz ⊢
  cases hzx : subLt z x with
  | false => rfl
  | true =>
    cases hzy : subLt z y with
    | true => rw [hzy] at hyz; exact absurd hyz (by simp)
    | false =>
      cases hyz' : subLt y z with
      | true =>
        have := subLt_trans hyz' hzx
        rw [this] at hxy
        exact absurd hxy (by simp)
      | false =>
        have : y = z := subLt_connex hyz' hzy
        subst this
        rw [hzx] at hxy
        exact absurd hxy (by simp)

theorem subLt_of_subLe_of_subLt {x y z : SubID}
    (h1 : subLe x y = true) (h2 : subLt y z = true) : subLt x z = true := by
  simp only [subLe, Bool.not_eq_true'] at h1
  cases hxz : subLt x z with
  | true => rfl
  | false =>
    cases hzx : subLt z x with
    | true =>
      have := subLt_trans h2 hzx
      rw [this] at h1
      exact absurd h1 (by simp)
    | false =>
      have : x = z := subLt_connex hxz hzx
      subst this
      rw [h2] at h1
      exact absurd h1 (by simp)

/-- Python's `bisect.bisect_right(a, x, lo, hi)` binary-search loop:
while `lo < hi`: `mid = (lo+hi)//2`; if `x < a[mid]` then `hi = mid` else
`lo = mid+1`; return `lo`.  Out-of-range access is modelled with `getD`
(never reached while `hi <= a.length`). -/
def bisectRightAux (a : List SubID) (x : SubID) (lo hi : Nat) : Nat :=
  if _h : lo < hi then
    let mid := (lo + hi) / 2
    if subLt x (a.getD mid []) then bisectRightAux a x lo mid
    else bisectRightAux a x (mid + 1) hi
  else lo
termination_by hi - lo
decreasing_by
  · omega
  · omega

theorem bisectRightAux_stop {a : List SubID} {x : SubID} {lo hi : Nat}
    (h : ¬ lo < hi) : bisectRightAux a x lo hi = lo := by
  rw [bisectRightAux]
  simp [h]

theorem bisectRightAux_go_left {a : List SubID} {x : SubID} {lo hi : Nat}
    (h : lo < hi) (hc : subLt x (a.getD ((lo + hi) / 2) []) = true) :
    bisectRightAux a x lo hi = bisectRightAux a x lo ((lo + hi) / 2) := by
  rw [bisectRightAux, dif_pos h]
  simp only [hc, if_true]

theorem bisectRightAux_go_right {a : List SubID} {x : SubID} {lo hi : Nat}
    (h : lo < hi) (hc : subLt x (a.getD ((lo + hi) / 2) []) = false) :
    bisectRightAux a x lo hi = bisectRightAux a x ((lo + hi) / 2 + 1) hi := by
  rw [bisectRightAux, dif_pos h]
  simp only [hc]
  rw [if_neg (by simp)]

theorem subLt_of_subLt_of_subLe {x y z : SubID}
    (h1 : subLt x y = true) (h2 : subLe y z = true) : subLt x z = true := by
  simp only [subLe, Bool.not_eq_true'] at h2
  cases hxz : subLt x z with
  | true => rfl
  | false =>
    cases hzx : subLt z x with
    | true =>
      have := subLt_trans hzx h1
      rw [this] at h2
      exact absurd h2 (by simp)
    | false =>
      have : x = z := subLt_connex hxz hzx
      subst this
      rw [h1] at h2
      exact absurd h2 (by simp)

/-- Python's `bisect.bisect_right(a, x)` over the whole list. -/
def bisect_right (a : List SubID) (x : SubID) : Nat := bisectRightAux a x 0 a.length

/-- The committed sorted SubID sequence of an ordered-snapshot updater:
`sort()` leaves the sequence pairwise non-decreasing under tuple order. -/
def SortedSub (l : List SubID) : Prop := l.Pairwise (fun a b => subLe a b = true)

instance (l : List SubID) : Decidable (SortedSub l) :=
  inferInstanceAs (Decidable (l.Pairwise (fun a b => subLe a b = true)))

theorem sortedSub_getD_mono {l : List SubID} (hl : SortedSub l) {i j : Nat}
    (hij : i ≤ j) (hj : j < l.length) :
    subLe (l.getD i []) (l.getD j []) = true := by
  have hi : i < l.length := Nat.lt_of_le_of_lt hij hj
  rw [List.getD_eq_getElem l [] hi, List.getD_eq_getElem l [] hj]
  rcases Nat.lt_or_ge i j with hlt | hge
  · exact (List.pairwise_iff_getElem.mp hl) i j hi hj hlt
  · have : i = j := Nat.le_antisymm hij hge
    subst this
    exact subLe_refl _

theorem bisectRightAux_spec (a : List SubID) (x : SubID) (hl : SortedSub a) :
    ∀ n lo hi, hi - lo ≤ n → lo ≤ hi → hi ≤ a.length →
      (∀ j, j < lo → subLe (a.getD j []) x = true) →
      (∀ j, hi ≤ j → j < a.length → subLt x (a.getD j []) = true) →
      lo ≤ bisectRightAux a x lo hi ∧ bisectRightAux a x lo hi ≤ hi ∧
      (∀ j, j < bisectRightAux a x lo hi → subLe (a.getD j []) x = true) ∧
      (∀ j, bisectRightAux a x lo hi ≤ j → j < a.length →
        subLt x (a.getD j []) = true) := by
  intro n
  induction n with
  | zero =>
    intro lo hi hn hlohi hhi hleft hright
    have : lo = hi := by omega
    subst this
    rw [bisectRightAux_stop (Nat.lt_irrefl _)]
    exact ⟨Nat.le_refl _, Nat.le_refl _, hleft, hright⟩
  | succ n ih =>
    intro lo hi hn hlohi hhi hleft hright
    by_cases h : lo < hi
    · have hmlo : lo ≤ (lo + hi) / 2 := by omega
      have hmhi : (lo + hi) / 2 < hi := by omega
      have hmemlen : (lo + hi) / 2 < a.length := Nat.lt_of_lt_of_le hmhi hhi
      cases hcmp : subLt x (a.getD ((lo + hi) / 2) []) with
      | true =>
        rw [bisectRightAux_go_left h hcmp]
        have hres := ih lo ((lo + hi) / 2) (by omega) (by omega) (by omega) hleft
          (by
            intro j hj hjlen
            exact subLt_of_subLt_of_subLe hcmp (sortedSub_getD_mono hl hj hjlen))
        exact ⟨hres.1, Nat.le_trans hres.2.1 (Nat.le_of_lt hmhi), hres.2.2⟩
      | false =>
        rw [bisectRightAux_go_right h hcmp]
        have hmidle : subLe (a.getD ((lo + hi) / 2) []) x = true := by
          simp only [subLe, hcmp, Bool.not_false]
        have hres := ih ((lo + hi) / 2 + 1) hi (by omega) (by omega) hhi
          (by
            intro j hj
            have hj' : j ≤ (lo + hi) / 2 := by omega
            exact subLe_trans (sortedSub_getD_mono hl hj' hmemlen) hmidle)
          hright
        exact ⟨Nat.le_trans (by omega) hres.1, hres.2.1, hres.2.2⟩
    · have heq : lo = hi := by omega
      subst heq
      rw [bisectRightAux_stop h]
      exact ⟨Nat.le_refl _, Nat.le_refl _, hleft, hright⟩

theorem bisect_right_spec (a : List SubID) (x : SubID) (hl : SortedSub a) :
    bisect_right a x ≤ a.length ∧
    (∀ j, j < bisect_right a x → subLe (a.getD j []) x = true) ∧
    (∀ j, bisect_right a x ≤ j → j < a.length → subLt x (a.getD j []) = true) := by
  have h := bisectRightAux_spec a x hl a.length 0 a.length (by omega) (by omega)
    (Nat.le_refl _) (by intro j hj; omega) (by intro j hj hjl; omega)
  exact ⟨h.2.1, h.2.2.1, h.2.2.2⟩

/-- `get_next` of the ordered-snapshot updaters (`ArpUpdater.get_next`,
`RouteUpdater.get_next`, `FdbUpdater.get_next` are textually identical):
`right = bisect_right(lst, sub_id)`; `None` if `right >= len(lst)`, else
`lst[right]`. -/
def getNextSorted (l : List SubID) (s : SubID) : Option SubID :=
  if l.length ≤ bisect_right l s then none
  else some (l.getD (bisect_right l s) [])

/-- C1: for every ordered-snapshot updater (ARP, FDB, default-route),
`get_next(s)` over the committed sorted SubID sequence returns the
lexicographically smallest stored SubID strictly greater than `s` (for any
queried `s`, stored or not), returns none when `s` is at or beyond the
maximum stored SubID, and on an empty snapshot returns none for every `s`. -/
theorem get_next_spec (l : List SubID) (s : SubID) (hl : SortedSub l) :
    (∀ t, getNextSorted l s = some t →
        t ∈ l ∧ subLt s t = true ∧ ∀ u ∈ l, subLt s u = true → subLe t u = true)
    ∧ (getNextSorted l s = none ↔ ∀ u ∈ l, subLe u s = true) := by
  obtain ⟨hle, hleft, hright⟩ := bisect_right_spec l s hl
  by_cases hcase : l.length ≤ bisect_right l s
  · constructor
    · intro t ht
      unfold getNextSorted at ht
      rw [if_pos hcase] at ht
      exact absurd ht (by simp)
    · unfold getNextSorted
      rw [if_pos hcase]
      simp only [true_iff]
      intro u hu
      obtain ⟨i, hi, rfl⟩ := List.mem_iff_getElem.mp hu
      have : i < bisect_right l s := Nat.lt_of_lt_of_le hi hcase
      have := hleft i this
      rwa [List.getD_eq_getElem l [] hi] at this
  · have hrlen : bisect_right l s < l.length := Nat.lt_of_not_le hcase
    constructor
    · intro t ht
      unfold getNextSorted at ht
      rw [if_neg hcase] at ht
      have ht' : l.getD (bisect_right l s) [] = t := by
        exact Option.some.inj ht
      subst ht'
      refine ⟨?_, ?_, ?_⟩
      · rw [List.getD_eq_getElem l [] hrlen]
        exact List.getElem_mem hrlen
      · exact hright _ (Nat.le_refl _) hrlen
      · intro u hu hsu
        obtain ⟨i, hi, rfl⟩ := List.mem_iff_getElem.mp hu
        rcases Nat.lt_or_ge i (bisect_right l s) with hlt | hge
        · have := hleft i hlt
          rw [List.getD_eq_getElem l [] hi] at this
          rw [not_subLe_of_subLt hsu] at this
          exact absurd this (by simp)
        · have := sortedSub_getD_mono hl hge hi
          rwa [List.getD_eq_getElem l [] hi] at this
    · unfold getNextSorted
      rw [if_neg hcase]
      constructor
      · intro hcontra
        exact absurd hcontra (by simp)
      · intro hall
        exfalso
        have hmem : l.getD (bisect_right l s) [] ∈ l := by
          rw [List.getD_eq_getElem l [] hrlen]
          exact List.getElem_mem hrlen
        have h1 := hall _ hmem
        have h2 := hright _ (Nat.le_refl _) hrlen
        rw [not_subLe_of_subLt h2] at h1
        exact absurd h1 (by simp)

/-- Witness for C1 at a concrete sorted snapshot. -/
theorem get_next_spec_witness :
    SortedSub [[1, 2], [1, 5], [2, 0]] ∧
    (getNextSorted [[1, 2], [1, 5], [2, 0]] [1, 3] = none ↔
      ∀ u ∈ ([[1, 2], [1, 5], [2, 0]] : List SubID), subLe u [1, 3] = true) :=
  ⟨by decide, (get_next_spec [[1, 2], [1, 5], [2, 0]] [1, 3] (by decide)).2⟩

/-- The part of `rfc1213.InterfacesUpdater` state that `get_counter` reads:
`oid_lag_name_map`, `lag_name_if_name_map` and `oid_sai_map` built by
`init_sync_d_lag_tables` / `init_sync_d_interface_tables`, the per-call
counter store `if_counters` rebuilt by `update_data` (a map
sai_id -> COUNTERS row; stored 64-bit values are modelled as `Nat`, the
successful `int()` parse of the stored decimal byte string), and the external
`swsssdk.port_util.get_index` as an abstract function. -/
structure IfUpdState where
  oid_lag_name_map : List (Nat × String)
  lag_name_if_name_map : List (String × List String)
  oid_sai_map : List (Nat × String)
  if_counters : List (String × List (String × Nat))
  get_index : String → Option Nat

/-- The LAG-member accumulation loop of `InterfacesUpdater.get_counter`:
`counter_value = 0; for lag_member in members: counter_value +=
self.get_counter(...)`.  Adding Python `None` to an int raises `TypeError`;
an exception in a recursive call propagates. -/
def sumExceptMembers (f : String → Except PyErr (Option Nat)) :
    List String → Except PyErr Nat
  | [] => .ok 0
  | m :: rest =>
    match f m with
    | .error e => .error e
    | .ok none => .error .typeError
    | .ok (some v) =>
      match sumExceptMembers f rest with
      | .error e => .error e
      | .ok s => .ok (v + s)

/-- `InterfacesUpdater.get_counter(sub_id, table_name)`.  `sub` is the Python
argument, which may be `None` (e.g. `mibs.get_index` of an unknown member
name); `None` is never a key of the int-keyed dicts, so it falls through to
`oid_sai_map[sub_id]` and a `KeyError`.  The LAG branch recurses on the
members; `fuel` bounds that recursion (Python has no bound; `fuelOut` is
unreachable under every hypothesis used below).  The `try`-block around the
counter read catches `KeyError` only (missing sai row or missing field),
logs a warning and returns `None`, modelled as `.ok none`. -/
def getCounter : Nat → IfUpdState → Option Nat → String → Except PyErr (Option Nat)
  | 0, _, _, _ => .error .fuelOut
  | fuel + 1, st, sub, tbl =>
    match (match sub with
           | none => none
           | some i => st.oid_lag_name_map.lookup i) with
    | some lagName =>
      match st.lag_name_if_name_map.lookup lagName with
      | none => .error .keyError
      | some members =>
        match sumExceptMembers (fun m => getCounter fuel st (st.get_index m) tbl) members with
        | .error e => .error e
        | .ok total => .ok (some (total % 2 ^ 32))
    | none =>
      match (match sub with
             | none => none
             | some i => st.oid_sai_map.lookup i) with
      | none => .error .keyError
      | some sai =>
        match st.if_counters.lookup sai with
        | none => .ok none
        | some row =>
          match row.lookup tbl with
          | none => .ok none
          | some c => .ok (some (c % 2 ^ 32))

/-- The raw stored 64-bit counter a non-LAG `get_counter` query reads before
truncation: `self.if_counters[self.oid_sai_map[sub_id]][table_name]`. -/
def storedCounter (st : IfUpdState) (sub : Option Nat) (tbl : String) : Option Nat :=
  match sub with
  | none => none
  | some i =>
    match st.oid_sai_map.lookup i with
    | none => none
    | some sai =>
      match st.if_counters.lookup sai with
      | none => none
      | some row => row.lookup tbl

theorem getCounter_plain_of_stored {st : IfUpdState} {sub : Option Nat}
    {tbl : String} {c : Nat} (fuel : Nat)
    (hlag : (match sub with
             | none => none
             | some i => st.oid_lag_name_map.lookup i) = (none : Option String))
    (hst : storedCounter st sub tbl = some c) :
    getCounter (fuel + 1) st sub tbl = .ok (some (c % 2 ^ 32)) := by
  cases sub with
  | none => simp [storedCounter] at hst
  | some i =>
    have hlag' : st.oid_lag_name_map.lookup i = none := hlag
    cases hsai : st.oid_sai_map.lookup i with
    | none => simp [storedCounter, hsai] at hst
    | some sai =>
      cases hrow : st.if_counters.lookup sai with
      | none => simp [storedCounter, hsai, hrow] at hst
      | some row =>
        have hc : row.lookup tbl = some c := by
          simpa [storedCounter, hsai, hrow] using hst
        simp [getCounter, hlag', hsai, hrow, hc]

theorem sumExceptMembers_ok {f : String → Except PyErr (Option Nat)}
    {members : List String} {cv : String → Nat}
    (h : ∀ m ∈ members, f m = .ok (some (cv m))) :
    sumExceptMembers f members = .ok ((members.map cv).sum) := by
  induction members with
  | nil => rfl
  | cons m rest ih =>
    have hm := h m (List.mem_cons_self m rest)
    have hrest := ih (fun x hx => h x (List.mem_cons_of_mem m hx))
    simp [sumExceptMembers, hm, hrest]

theorem sum_map_mod (cv : String → Nat) (n : Nat) (ls : List String) :
    (ls.map (fun m => cv m % n)).sum % n = (ls.map cv).sum % n := by
  induction ls with
  | nil => rfl
  | cons a t ih =>
    simp only [List.map_cons, List.sum_cons]
    rw [Nat.add_mod, ih, Nat.mod_mod_of_dvd _ dvd_rfl, ← Nat.add_mod]

/-- C7: for every non-LAG interface sub-identifier whose 64-bit counter
field is present with stored value `c`, `get_counter` reports exactly
`c mod 2^32` (`int(counter_value) & 0x00000000ffffffff`). -/
theorem get_counter_truncate_32 (st : IfUpdState) (fuel sub : Nat) (tbl : String) (c : Nat)
    (hlag : st.oid_lag_name_map.lookup sub = none)
    (hst : storedCounter st (some sub) tbl = some c) :
    getCounter (fuel + 1) st (some sub) tbl = Except.ok (some (c % 2 ^ 32)) :=
  getCounter_plain_of_stored fuel hlag hst

/-- A concrete `InterfacesUpdater` state: one plain interface `Ethernet0`
(oid 1, sai id `sai1`) with one counter field of value `2^32 + 12`. -/
def plainIfState : IfUpdState where
  oid_lag_name_map := []
  lag_name_if_name_map := []
  oid_sai_map := [(1, "sai1")]
  if_counters := [("sai1", [("SAI_PORT_STAT_IF_IN_OCTETS", 2 ^ 32 + 12)])]
  get_index := fun _ => none

/-- Witness for C7 at `plainIfState`: the reported value is `12`. -/
theorem get_counter_truncate_32_witness :
    getCounter 1 plainIfState (some 1) "SAI_PORT_STAT_IF_IN_OCTETS"
      = Except.ok (some ((2 ^ 32 + 12) % 2 ^ 32)) :=
  get_counter_truncate_32 plainIfState 0 1 "SAI_PORT_STAT_IF_IN_OCTETS" (2 ^ 32 + 12)
    (by rfl) (by rfl)

/-- C2: for every LAG sub-identifier, `get_counter` recomputes, on each call
and from the updater's current counter store, the sum of the members'
underlying counters reduced mod `2^32`: there is no per-LAG cache, so any
change of a member's underlying counter between two calls changes the LAG's
reported value with no LAG-level refresh (the statement holds for every
current `if_counters` store). -/
theorem get_counter_lag_rollup (st : IfUpdState) (fuel lagSub : Nat) (lagName : String)
    (members : List String) (cval : String → Nat) (tbl : String)
    (hlag : st.oid_lag_name_map.lookup lagSub = some lagName)
    (hmem : st.lag_name_if_name_map.lookup lagName = some members)
    (hnolag : ∀ m ∈ members, (match st.get_index m with
        | none => none
        | some i => st.oid_lag_name_map.lookup i) = (none : Option String))
    (hval : ∀ m ∈ members, storedCounter st (st.get_index m) tbl = some (cval m)) :
    getCounter (fuel + 2) st (some lagSub) tbl
      = Except.ok (some ((members.map cval).sum % 2 ^ 32)) := by
  have hinner : ∀ m ∈ members,
      getCounter (fuel + 1) st (st.get_index m) tbl
        = Except.ok (some ((fun m => cval m % 2 ^ 32) m)) :=
    fun m hm => getCounter_plain_of_stored fuel (hnolag m hm) (hval m hm)
  have hsum := sumExceptMembers_ok hinner
  have hunf : getCounter (fuel + 2) st (some lagSub) tbl
      = match sumExceptMembers
          (fun m => getCounter (fuel + 1) st (st.get_index m) tbl) members with
        | Except.error e => Except.error e
        | Except.ok total => Except.ok (some (total % 2 ^ 32)) := by
    show getCounter ((fuel + 1) + 1) st (some lagSub) tbl = _
    simp only [getCounter, hlag, hmem]
  rw [hunf, hsum]
  simp only [sum_map_mod]

/-- A concrete `InterfacesUpdater` state for the LAG rollup: LAG oid 1000
with members `Ethernet0` (counter 5) and `Ethernet4` (counter `2^32 + 7`). -/
def lagIfState : IfUpdState where
  oid_lag_name_map := [(1000, "PortChannel01")]
  lag_name_if_name_map := [("PortChannel01", ["Ethernet0", "Ethernet4"])]
  oid_sai_map := [(1, "sai1"), (5, "sai5")]
  if_counters := [("sai1", [("SAI_PORT_STAT_IF_IN_OCTETS", 5)]),
                  ("sai5", [("SAI_PORT_STAT_IF_IN_OCTETS", 2 ^ 32 + 7)])]
  get_index := fun n => if n = "Ethernet0" then some 1
    else if n = "Ethernet4" then some 5 else none

/-- Witness for C2 at `lagIfState`: the LAG reports
`(5 + (2^32 + 7)) mod 2^32 = 12`. -/
theorem get_counter_lag_rollup_witness :
    getCounter 2 lagIfState (some 1000) "SAI_PORT_STAT_IF_IN_OCTETS"
      = Except.ok (some ((([ "Ethernet0", "Ethernet4" ].map
          (fun n => if n = "Ethernet0" then 5 else 2 ^ 32 + 7)).sum) % 2 ^ 32)) :=
  get_counter_lag_rollup lagIfState 0 1000 "PortChannel01" ["Ethernet0", "Ethernet4"]
    (fun n => if n = "Ethernet0" then 5 else 2 ^ 32 + 7) "SAI_PORT_STAT_IF_IN_OCTETS"
    (by rfl) (by rfl) (by decide) (by decide)

/-- A concrete `InterfacesUpdater` state falsifying C6: LAG oid 1000 whose
single member `Ethernet0` has a counters row lacking the queried field. -/
def cexIfState : IfUpdState where
  oid_lag_name_map := [(1000, "PortChannel01")]
  lag_name_if_name_map := [("PortChannel01", ["Ethernet0"])]
  oid_sai_map := [(1, "sai1")]
  if_counters := [("sai1", [("SAI_PORT_STAT_IF_OUT_OCTETS", 7)])]
  get_index := fun n => if n = "Ethernet0" then some 1 else none

/-- Counterexample to C6: the claim says a missing counter field of any LAG
member yields "no value" and never an exception; at `cexIfState` the LAG
query `get_counter(1000, IF_IN_OCTETS)` raises an uncaught `TypeError`
(`counter_value += None`) instead. -/
theorem get_counter_missing_field_cex :
    getCounter 2 cexIfState (some 1000) "SAI_PORT_STAT_IF_IN_OCTETS"
      = Except.error PyErr.typeError := by
  rfl

/-- C6 amended: a missing counter field on a plain (non-LAG) interface is
logged and reported as "no value" (`None`) without an exception; but when a
LAG member's otherwise valid counters row lacks the queried field, the
member-level `None` is summed into the LAG total and `get_counter` raises an
uncaught `TypeError` to the caller. -/
theorem get_counter_missing_field_amended :
    (∀ (st : IfUpdState) (fuel sub : Nat) (sai : String)
       (row : List (String × Nat)) (tbl : String),
       st.oid_lag_name_map.lookup sub = none →
       st.oid_sai_map.lookup sub = some sai →
       st.if_counters.lookup sai = some row →
       row.lookup tbl = none →
       getCounter (fuel + 1) st (some sub) tbl = Except.ok none)
    ∧ (∀ (st : IfUpdState) (fuel lagSub : Nat) (lagName m : String)
        (rest : List String) (j : Nat) (sai : String)
        (row : List (String × Nat)) (tbl : String),
       st.oid_lag_name_map.lookup lagSub = some lagName →
       st.lag_name_if_name_map.lookup lagName = some (m :: rest) →
       st.get_index m = some j →
       st.oid_lag_name_map.lookup j = none →
       st.oid_sai_map.lookup j = some sai →
       st.if_counters.lookup sai = some row →
       row.lookup tbl = none →
       getCounter (fuel + 2) st (some lagSub) tbl = Except.error PyErr.typeError) := by
  constructor
  · intro st fuel sub sai row tbl hlag hsai hrow hfield
    simp [getCounter, hlag, hsai, hrow, hfield]
  · intro st fuel lagSub lagName m rest j sai row tbl hlag hmem hgi hjlag hjsai hjrow hjfield
    have hinner : getCounter (fuel + 1) st (st.get_index m) tbl = Except.ok none := by
      rw [hgi]
      simp [getCounter, hjlag, hjsai, hjrow, hjfield]
    have hunf : getCounter (fuel + 2) st (some lagSub) tbl
        = match sumExceptMembers
            (fun x => getCounter (fuel + 1) st (st.get_index x) tbl) (m :: rest) with
          | Except.error e => Except.error e
          | Except.ok total => Except.ok (some (total % 2 ^ 32)) := by
      show getCounter ((fuel + 1) + 1) st (some lagSub) tbl = _
      simp only [getCounter, hlag, hmem]
    rw [hunf]
    simp [sumExceptMembers, hinner]

/-- Witness for the amended C6 at concrete states: both conjuncts applied
at explicit inputs. -/
theorem get_counter_missing_field_amended_witness :
    getCounter 1 cexIfState (some 1) "SAI_PORT_STAT_IF_IN_OCTETS" = Except.ok none ∧
    getCounter 2 cexIfState (some 1000) "SAI_PORT_STAT_IF_IN_OCTETS"
      = Except.error PyErr.typeError :=
  ⟨get_counter_missing_field_amended.1 cexIfState 0 1 "sai1"
      [("SAI_PORT_STAT_IF_OUT_OCTETS", 7)] "SAI_PORT_STAT_IF_IN_OCTETS"
      (by rfl) (by rfl) (by rfl) (by rfl),
   get_counter_missing_field_amended.2 cexIfState 0 1000 "PortChannel01" "Ethernet0"
      [] 1 "sai1" [("SAI_PORT_STAT_IF_OUT_OCTETS", 7)] "SAI_PORT_STAT_IF_IN_OCTETS"
      (by rfl) (by rfl) (by rfl) (by rfl) (by rfl) (by rfl) (by rfl)⟩

/-- Python dict assignment `d[k] = v`: overwrite an existing key in place,
else append. -/
def dictInsert {α β : Type} [BEq α] : List (α × β) → α → β → List (α × β)
  | [], k, v => [(k, v)]
  | (k', v') :: rest, k, v =>
    if k' == k then (k, v) :: rest else (k', v') :: dictInsert rest k v

/-- Python `dict.update(n)`: right-biased union (last writer wins on field
collisions). -/
def dictUpdate {α β : Type} [BEq α] (m n : List (α × β)) : List (α × β) :=
  n.foldl (fun acc kv => dictInsert acc kv.1 kv.2) m

/-- One namespace connection (a `SonicV2Connector`), abstracted to the reads
the `Namespace` helpers perform: `keys` (which may return Python `None`),
`exists`, `get_all`, and the result of the external
`port_util.get_bridge_port_map` on this connection. -/
structure Conn where
  keysFn : String → String → Option (List String)
  existsFn : String → String → Bool
  get_allFn : String → String → Option (List (String × String))
  bridgePortMap : List (String × String)

/-- `Namespace.dbs_keys`: for every connection in `dbs` (all of them,
including the first), run `keys` and extend the result list when it is not
`None`. -/
def dbs_keys (dbs : List Conn) (db_name pat : String) : List String :=
  dbs.foldl (fun acc c =>
    match c.keysFn db_name pat with
    | none => acc
    | some ks => acc ++ ks) []

/-- `Namespace.dbs_get_all`: for every connection in `dbs` (all of them,
including the first), if the hash exists, `get_all` it and merge with
`result.update(ns_result)`. -/
def dbs_get_all (dbs : List Conn) (db_name h : String) : List (String × String) :=
  dbs.foldl (fun acc c =>
    if c.existsFn db_name h then
      match c.get_allFn db_name h with
      | none => acc
      | some ns => dictUpdate acc ns
    else acc) []

/-- `Namespace.get_non_host_dbs`: the single connection when only one
exists, otherwise all connections except the first (`dbs[1:]`). -/
def get_non_host_dbs (dbs : List Conn) : List Conn :=
  if dbs.length = 1 then dbs else dbs.drop 1

/-- `Namespace.dbs_get_bridge_port_map`: union of the per-connection bridge
port maps over `get_non_host_dbs` (one of the namespace-wrapped Snapshot
Loader sub-routines; `init_namespace_sync_d_*` all share this shape). -/
def dbs_get_bridge_port_map (dbs : List Conn) : List (String × String) :=
  (get_non_host_dbs dbs).foldl (fun acc c => dictUpdate acc c.bridgePortMap) []

/-- Modelled from the spec words of C3, for comparison with `dbs_keys`: the
key scan applied to every namespace connection except the primary. -/
def specKeysNonHost (dbs : List Conn) (db_name pat : String) : List String :=
  dbs_keys (get_non_host_dbs dbs) db_name pat

/-- Modelled from the spec words of C3, for comparison with `dbs_get_all`:
the key-existence-plus-get-all read applied to every namespace connection
except the primary. -/
def specGetAllNonHost (dbs : List Conn) (db_name h : String) : List (String × String) :=
  dbs_get_all (get_non_host_dbs dbs) db_name h

theorem get_non_host_dbs_single (c : Conn) : get_non_host_dbs [c] = [c] := rfl

theorem get_non_host_dbs_cons2 (a b : Conn) (t : List Conn) :
    get_non_host_dbs (a :: b :: t) = b :: t := by
  unfold get_non_host_dbs
  rw [if_neg]
  · rfl
  · simp

theorem mem_dbs_keys_foldl (d p k : String) :
    ∀ (dbs : List Conn) (acc : List String), k ∈ acc →
      k ∈ dbs.foldl (fun acc c =>
        match c.keysFn d p with
        | none => acc
        | some ks => acc ++ ks) acc := by
  intro dbs
  induction dbs with
  | nil => intro acc hk; exact hk
  | cons c rest ih =>
    intro acc hk
    simp only [List.foldl_cons]
    cases hc : c.keysFn d p with
    | none => exact ih acc hk
    | some ks => exact ih (acc ++ ks) (List.mem_append_left ks hk)

/-- A concrete primary connection holding key `k0`, field `fa`. -/
def connA : Conn where
  keysFn := fun _ _ => some ["k0"]
  existsFn := fun _ _ => true
  get_allFn := fun _ _ => some [("fa", "a")]
  bridgePortMap := [("bpA", "pA")]

/-- A concrete second (per-instance) connection holding key `k1`,
field `fb`. -/
def connB : Conn where
  keysFn := fun _ _ => some ["k1"]
  existsFn := fun _ _ => true
  get_allFn := fun _ _ => some [("fb", "b")]
  bridgePortMap := [("bpB", "pB")]

/-- Counterexample to C3: with two connections, `dbs_keys` and
`dbs_get_all` iterate over every connection including the primary, so their
results contain the primary's key `k0` and field `fa`, unlike the
claim's "every connection except the primary" reads. -/
theorem namespace_aggregation_cex :
    dbs_keys [connA, connB] "APPL_DB" "*" = ["k0", "k1"] ∧
    specKeysNonHost [connA, connB] "APPL_DB" "*" = ["k1"] ∧
    dbs_keys [connA, connB] "APPL_DB" "*"
      ≠ specKeysNonHost [connA, connB] "APPL_DB" "*" ∧
    dbs_get_all [connA, connB] "STATE_DB" "h" = [("fa", "a"), ("fb", "b")] ∧
    specGetAllNonHost [connA, connB] "STATE_DB" "h" = [("fb", "b")] ∧
    dbs_get_all [connA, connB] "STATE_DB" "h"
      ≠ specGetAllNonHost [connA, connB] "STATE_DB" "h" := by
  refine ⟨rfl, rfl, by decide, rfl, rfl, by decide⟩

/-- C3 amended: the namespace-wrapped Snapshot Loader sub-routines apply
their read to `get_non_host_dbs` — every connection except the first when
several exist, the single connection itself otherwise — and merge by map
union (shown on `dbs_get_bridge_port_map`: the result never depends on the
primary connection).  But `dbs_keys` and `dbs_get_all` iterate over all
connections, the primary included: any key the primary reports is in the
scan result. -/
theorem namespace_aggregation_amended :
    (∀ (c : Conn) (rest : List Conn) (d p : String) (ks : List String),
       c.keysFn d p = some ks → ∀ k ∈ ks, k ∈ dbs_keys (c :: rest) d p)
    ∧ (∀ (a a' b : Conn) (t : List Conn),
       dbs_get_bridge_port_map (a :: b :: t) = dbs_get_bridge_port_map (a' :: b :: t))
    ∧ (∀ c : Conn, get_non_host_dbs [c] = [c])
    ∧ (∀ (a b : Conn) (t : List Conn), get_non_host_dbs (a :: b :: t) = b :: t) := by
  refine ⟨?_, ?_, get_non_host_dbs_single, get_non_host_dbs_cons2⟩
  · intro c rest d p ks hc k hk
    unfold dbs_keys
    simp only [List.foldl_cons, hc]
    exact mem_dbs_keys_foldl d p k rest ([] ++ ks) hk
  · intro a a' b t
    unfold dbs_get_bridge_port_map
    rw [get_non_host_dbs_cons2, get_non_host_dbs_cons2]

/-- Witness for the amended C3: the primary's key `k0` is in the two-
connection `dbs_keys` result. -/
theorem namespace_aggregation_amended_witness :
    "k0" ∈ dbs_keys [connA, connB] "APPL_DB" "*" :=
  namespace_aggregation_amended.1 connA [connB] "APPL_DB" "*" ["k0"] rfl "k0"
    (List.mem_singleton.mpr rfl)

/-- Inputs of `init_sync_d_interface_tables`, with the external
collaborators abstracted: `if_name_map0`/`if_id_map0` are the two maps
returned by `swsssdk.port_util.get_interface_oid_map`, `matches` is the
disjunction of the two accepted name regexes
(`SONIC_ETHERNET_RE_PATTERN` / `SONIC_ETHERNET_BP_RE_PATTERN`),
`get_index` is `port_util.get_index`, and `applGetAll` is the blocking
`get_all(APPL_DB, PORT_TABLE:<name>)` read used for aliases. -/
structure IfTablesInput where
  if_name_map0 : List (String × String)
  if_id_map0 : List (String × String)
  nameMatches : String → Bool
  get_index : String → Option Nat
  applGetAll : String → List (String × String)

/-- `mibs.init_sync_d_interface_tables(db_conn)`: filter both maps by the
accepted name patterns, derive `oid_sai_map`/`oid_name_map` keyed by
`get_index` (entries whose `get_index` is `None` are dropped), raise
`RuntimeError` when `oid_sai_map` is empty, otherwise resolve aliases
(default: the canonical name) and return the five maps. -/
def init_sync_d_interface_tables (inp : IfTablesInput) :
    Except PyErr
      (List (String × String) × List (String × String) × List (String × String) ×
        List (Nat × String) × List (Nat × String)) :=
  let if_name_map := inp.if_name_map0.filter (fun p => inp.nameMatches p.1)
  let if_id_map := inp.if_id_map0.filter (fun p => inp.nameMatches p.2)
  let oid_sai_map := if_name_map.foldl (fun acc p =>
    match inp.get_index p.1 with
    | none => acc
    | some i => dictInsert acc i p.2) []
  let oid_name_map := if_name_map.foldl (fun acc p =>
    match inp.get_index p.1 with
    | none => acc
    | some i => dictInsert acc i p.1) []
  if oid_sai_map.isEmpty then Except.error PyErr.runtimeError
  else
    let if_alias_map := if_name_map.map (fun p =>
      (p.1, ((inp.applGetAll p.1).lookup "alias").getD p.1))
    Except.ok (if_name_map, if_alias_map, if_id_map, oid_sai_map, oid_name_map)

/-- C4: whenever every scanned port entry fails the accepted front-panel /
backplane name-pattern filter, the OID-to-SAI map comes out empty and
interface-table initialization raises a fatal `RuntimeError` instead of
returning, so no OIDs for that MIB are registered. -/
theorem init_interface_tables_fatal (inp : IfTablesInput)
    (h : ∀ p ∈ inp.if_name_map0, inp.nameMatches p.1 = false) :
    init_sync_d_interface_tables inp = Except.error PyErr.runtimeError := by
  have hempty : inp.if_name_map0.filter (fun p => inp.nameMatches p.1) = [] := by
    rw [List.filter_eq_nil_iff]
    intro p hp
    simp [h p hp]
  unfold init_sync_d_interface_tables
  simp only [hempty, List.foldl_nil, List.isEmpty_nil, if_true]

/-- A concrete backing store whose only port entry fails the name filter. -/
def badIfInput : IfTablesInput where
  if_name_map0 := [("eth0", "sai1")]
  if_id_map0 := [("sai1", "eth0")]
  nameMatches := fun n => n = "Ethernet0"
  get_index := fun _ => none
  applGetAll := fun _ => []

/-- Witness for C4 at `badIfInput`. -/
theorem init_interface_tables_fatal_witness :
    init_sync_d_interface_tables badIfInput = Except.error PyErr.runtimeError :=
  init_interface_tables_fatal badIfInput (by decide)

/-- The characters of the bytes argument `b"oid:0x"` passed to
`bytes.lstrip` in `init_sync_d_lag_tables`; these same six characters, in
this order, also form the fixed leading marker of stored external ids. -/
def oidChars : List Char := ['o', 'i', 'd', ':', '0', 'x']

/-- `sai_id.lstrip(b"oid:0x")`: Python `lstrip` takes a character SET, so
this removes every leading character drawn from {o, i, d, :, 0, x}, not a
six-character fixed block. -/
def lstrip_oid0x (s : List Char) : List Char :=
  s.dropWhile (fun c => oidChars.contains c)

/-- The `lag_sai_map` rebuild of `init_sync_d_lag_tables`:
`{name: sai_id.lstrip(b"oid:0x") for name, sai_id in lag_sai_map.items()}`. -/
def build_lag_sai_map (raw : List (String × List Char)) : List (String × List Char) :=
  raw.map (fun p => (p.1, lstrip_oid0x p.2))

/-- Modelled from the spec words of C8, for comparison: remove exactly the
fixed six-character leading marker `oid:0x` and keep the remainder
unchanged. -/
def specOidStrip (s : List Char) : List Char := s.drop 6

/-- Counterexample to C8: for the stored value `oid:0x0abc` (whose first
character after the marker is `0`, an element of the lstrip set), the cached
external id is `abc`, not the claimed remainder `0abc`. -/
theorem lag_sai_strip_cex :
    build_lag_sai_map [("PortChannel01", ['o','i','d',':','0','x','0','a','b','c'])]
      = [("PortChannel01", ['a','b','c'])] ∧
    specOidStrip ['o','i','d',':','0','x','0','a','b','c'] = ['0','a','b','c'] ∧
    lstrip_oid0x ['o','i','d',':','0','x','0','a','b','c']
      ≠ specOidStrip ['o','i','d',':','0','x','0','a','b','c'] :=
  ⟨rfl, rfl, by decide⟩

/-- C8 amended: every cached LAG external id is the stored value with ALL
leading characters drawn from the set {o, i, d, :, 0, x} removed; on values
beginning with the `oid:0x` marker this strips the marker and then keeps
stripping, and it coincides with plain marker removal exactly when the first
character after the marker is outside that set. -/
theorem lag_sai_strip_amended :
    (∀ (raw : List (String × List Char)) (n : String) (v : List Char),
       (n, v) ∈ raw → (n, lstrip_oid0x v) ∈ build_lag_sai_map raw)
    ∧ (∀ rest : List Char, lstrip_oid0x (oidChars ++ rest)
        = rest.dropWhile (fun c => oidChars.contains c))
    ∧ (∀ (c : Char) (rest : List Char), oidChars.contains c = false →
       lstrip_oid0x (oidChars ++ c :: rest) = c :: rest) := by
  have hdrop : ∀ rest : List Char, lstrip_oid0x (oidChars ++ rest)
      = rest.dropWhile (fun c => oidChars.contains c) := fun rest => rfl
  refine ⟨?_, hdrop, ?_⟩
  · intro raw n v hmem
    exact List.mem_map_of_mem (fun p => (p.1, lstrip_oid0x p.2)) hmem
  · intro c rest hc
    rw [hdrop (c :: rest), List.dropWhile_cons, hc]
    simp

/-- Witness for the amended C8: stored value `oid:0xab` caches as `ab`. -/
theorem lag_sai_strip_amended_witness :
    oidChars.contains 'a' = false ∧
    lstrip_oid0x (oidChars ++ ['a', 'b']) = ['a', 'b'] :=
  ⟨by decide, lag_sai_strip_amended.2.2 'a' ['b'] (by decide)⟩

/-- A successfully decoded FDB entry key: the JSON dict fields that
`update_data` reads, `int(fdb["vlan"])` and the six MAC byte values
produced by `mac_decimals(fdb["mac"])`. -/
structure FdbRec where
  vlan : Nat
  mac : List Nat
deriving DecidableEq, Repr

/-- `fdb_vlanmac(fdb)`: the SubID `(int(fdb["vlan"]),) +
mac_decimals(fdb["mac"])`. -/
def fdb_vlanmac (r : FdbRec) : SubID := r.vlan :: r.mac

/-- The hash field holding the bridge port id of an FDB entry. -/
def bpAttr : String := "SAI_FDB_ENTRY_ATTR_BRIDGE_PORT_ID"

/-- One scanned `ASIC_STATE:SAI_OBJECT_TYPE_FDB_ENTRY:*` row as
`FdbUpdater.update_data` consumes it: `decoded` is the outcome of
`json.loads` on the key's JSON payload (`none` models the `ValueError` of a
malformed payload), and `attrs` is the row's `get_all` hash. -/
structure FdbScanEntry where
  decoded : Option FdbRec
  attrs : List (String × String)

/-- The `FdbUpdater` state `update_data` reads: the bridge-port-id to
port-id map `if_bpid_map` built by `reinit_data`, the interface id map
`if_id_map` from `init_sync_d_interface_tables`, and the external
`mibs.get_index`. -/
structure FdbState where
  if_bpid_map : List (String × String)
  if_id_map : List (String × String)
  get_index : String → Option Nat

/-- The scan loop of `FdbUpdater.update_data`, with the
`vlanmac_ifindex_map` / `vlanmac_ifindex_list` accumulators explicit.  A
JSON decode failure is caught, logged and BREAKS out of the loop, returning
what was accumulated so far; a row without the bridge-port attribute, a
bridge-port id (`ent[...][6:]`, the fixed marker sliced off) absent from
`if_bpid_map`, or a mapped port id absent from `if_id_map` raises an
uncaught `KeyError`. -/
def fdbUpdateLoop (st : FdbState) :
    List FdbScanEntry → List (SubID × Option Nat) → List SubID →
    Except PyErr (List (SubID × Option Nat) × List SubID)
  | [], m, l => .ok (m, l)
  | e :: rest, m, l =>
    match e.decoded with
    | none => .ok (m, l)
    | some fdb =>
      match e.attrs.lookup bpAttr with
      | none => .error .keyError
      | some v =>
        match st.if_bpid_map.lookup (v.drop 6) with
        | none => .error .keyError
        | some port_id =>
          match st.if_id_map.lookup port_id with
          | none => .error .keyError
          | some name =>
            fdbUpdateLoop st rest
              (dictInsert m (fdb_vlanmac fdb) (st.get_index name))
              (l ++ [fdb_vlanmac fdb])

/-- Insertion step of the committed list's ascending `sort()`. -/
def insertSub (x : SubID) : List SubID → List SubID
  | [] => [x]
  | y :: ys => if subLe x y then x :: y :: ys else y :: insertSub x ys

/-- `self.vlanmac_ifindex_list.sort()`: ascending sort under tuple order. -/
def sortSubs : List SubID → List SubID
  | [] => []
  | x :: xs => insertSub x (sortSubs xs)

/-- `FdbUpdater.update_data` on the scanned FDB entries: run the loop from
empty accumulators, then sort the committed list (an uncaught exception
skips the sort and aborts the refresh). -/
def fdbUpdateData (st : FdbState) (entries : List FdbScanEntry) :
    Except PyErr (List (SubID × Option Nat) × List SubID) :=
  match fdbUpdateLoop st entries [] [] with
  | .error e => .error e
  | .ok (m, l) => .ok (m, sortSubs l)

/-- Whether one FDB entry's bridge-port id resolves through `if_bpid_map`
and then `if_id_map` (the per-row lookups of `update_data` that are not
guarded by any handler). -/
def fdbResolvesB (st : FdbState) (e : FdbScanEntry) : Bool :=
  match e.attrs.lookup bpAttr with
  | none => true
  | some v =>
    match st.if_bpid_map.lookup (v.drop 6) with
    | none => false
    | some p => (st.if_id_map.lookup p).isSome

theorem fdbUpdateLoop_ok_of_resolves (st : FdbState) :
    ∀ (entries : List FdbScanEntry) (m : List (SubID × Option Nat)) (l : List SubID),
      (∀ e ∈ entries, e.decoded.isSome = true) →
      (∀ e ∈ entries, (e.attrs.lookup bpAttr).isSome = true) →
      (∀ e ∈ entries, fdbResolvesB st e = true) →
      ∃ r, fdbUpdateLoop st entries m l = Except.ok r := by
  intro entries
  induction entries with
  | nil => intro m l _ _ _; exact ⟨(m, l), rfl⟩
  | cons e rest ih =>
    intro m l hdec hattr hres
    obtain ⟨fdb, hfdb⟩ := Option.isSome_iff_exists.mp (hdec e (List.mem_cons_self e rest))
    obtain ⟨v, hv⟩ :=
      Option.isSome_iff_exists.mp (hattr e (List.mem_cons_self e rest))
    have he := hres e (List.mem_cons_self e rest)
    simp only [fdbResolvesB, hv] at he
    cases hbp : st.if_bpid_map.lookup (v.drop 6) with
    | none => simp only [hbp] at he; exact absurd he (by simp)
    | some p =>
      simp only [hbp] at he
      obtain ⟨name, hname⟩ := Option.isSome_iff_exists.mp he
      have := ih (dictInsert m (fdb_vlanmac fdb) (st.get_index name))
        (l ++ [fdb_vlanmac fdb])
        (fun x hx => hdec x (List.mem_cons_of_mem e hx))
        (fun x hx => hattr x (List.mem_cons_of_mem e hx))
        (fun x hx => hres x (List.mem_cons_of_mem e hx))
      obtain ⟨r, hr⟩ := this
      refine ⟨r, ?_⟩
      simp only [fdbUpdateLoop, hfdb, hv, hbp, hname]
      exact hr

theorem fdbUpdateLoop_keyError_of_violation (st : FdbState) :
    ∀ (entries : List FdbScanEntry) (m : List (SubID × Option Nat)) (l : List SubID),
      (∀ e ∈ entries, e.decoded.isSome = true) →
      (∀ e ∈ entries, (e.attrs.lookup bpAttr).isSome = true) →
      ¬ (∀ e ∈ entries, fdbResolvesB st e = true) →
      fdbUpdateLoop st entries m l = Except.error PyErr.keyError := by
  intro entries
  induction entries with
  | nil => intro m l _ _ hviol; exact absurd (by intro e he; cases he) hviol
  | cons e rest ih =>
    intro m l hdec hattr hviol
    obtain ⟨fdb, hfdb⟩ := Option.isSome_iff_exists.mp (hdec e (List.mem_cons_self e rest))
    obtain ⟨v, hv⟩ :=
      Option.isSome_iff_exists.mp (hattr e (List.mem_cons_self e rest))
    by_cases he : fdbResolvesB st e = true
    · have hrest : ¬ (∀ x ∈ rest, fdbResolvesB st x = true) := by
        intro hall
        exact hviol (by
          intro x hx
          rcases List.mem_cons.mp hx with rfl | hx'
          · exact he
          · exact hall x hx')
      simp only [fdbResolvesB, hv] at he
      cases hbp : st.if_bpid_map.lookup (v.drop 6) with
      | none => simp only [hbp] at he; exact absurd he (by simp)
      | some p =>
        simp only [hbp] at he
        obtain ⟨name, hname⟩ := Option.isSome_iff_exists.mp he
        have := ih (dictInsert m (fdb_vlanmac fdb) (st.get_index name))
          (l ++ [fdb_vlanmac fdb])
          (fun x hx => hdec x (List.mem_cons_of_mem e hx))
          (fun x hx => hattr x (List.mem_cons_of_mem e hx))
          hrest
        simp only [fdbUpdateLoop, hfdb, hv, hbp, hname]
        exact this
    · simp only [fdbResolvesB, hv] at he
      cases hbp : st.if_bpid_map.lookup (v.drop 6) with
      | none =>
        simp only [fdbUpdateLoop, hfdb, hv, hbp]
      | some p =>
        simp only [hbp] at he
        cases hname : st.if_id_map.lookup p with
        | none => simp only [fdbUpdateLoop, hfdb, hv, hbp, hname]
        | some name => rw [hname] at he; exact absurd (by simp) he

/-- C9: with every scanned FDB entry decodable and carrying the bridge-port
attribute, `FdbUpdater.update_data` completes exactly when every entry's
bridge-port id (after the marker strip) is a key of the bridge-port-to-port
map built by `reinit_data` and the mapped port id is a key of the interface
id map; any violating entry makes the whole refresh abort with an uncaught
`KeyError` instead of that row being skipped. -/
theorem fdb_update_total_iff (st : FdbState) (entries : List FdbScanEntry)
    (hdec : ∀ e ∈ entries, e.decoded.isSome = true)
    (hattr : ∀ e ∈ entries, (e.attrs.lookup bpAttr).isSome = true) :
    ((∃ r, fdbUpdateData st entries = Except.ok r) ↔
      ∀ e ∈ entries, fdbResolvesB st e = true)
    ∧ (¬ (∀ e ∈ entries, fdbResolvesB st e = true) →
      fdbUpdateData st entries = Except.error PyErr.keyError) := by
  have herr : ¬ (∀ e ∈ entries, fdbResolvesB st e = true) →
      fdbUpdateData st entries = Except.error PyErr.keyError := by
    intro hviol
    unfold fdbUpdateData
    rw [fdbUpdateLoop_keyError_of_violation st entries [] [] hdec hattr hviol]
  refine ⟨⟨?_, ?_⟩, herr⟩
  · intro hok
    by_contra hviol
    obtain ⟨r, hr⟩ := hok
    rw [herr hviol] at hr
    exact absurd hr (by simp)
  · intro hall
    obtain ⟨⟨m, l⟩, hr⟩ := fdbUpdateLoop_ok_of_resolves st entries [] [] hdec hattr hall
    refine ⟨(m, sortSubs l), ?_⟩
    unfold fdbUpdateData
    rw [hr]

/-- The `FdbUpdater` maps of the concrete scenarios: one bridge port `3a`
mapped to port `p1` = `Ethernet0` with interface index 1. -/
def fdbSt : FdbState where
  if_bpid_map := [("3a", "p1")]
  if_id_map := [("p1", "Ethernet0")]
  get_index := fun n => if n = "Ethernet0" then some 1 else none

/-- A well-formed FDB entry (vlan 10). -/
def goodE1 : FdbScanEntry where
  decoded := some ⟨10, [1, 2, 3, 4, 5, 6]⟩
  attrs := [(bpAttr, "oid:0x3a")]

/-- An FDB entry whose key fails JSON decoding. -/
def badE : FdbScanEntry where
  decoded := none
  attrs := []

/-- A well-formed FDB entry (vlan 20) scanned after the malformed one. -/
def goodE2 : FdbScanEntry where
  decoded := some ⟨20, [6, 5, 4, 3, 2, 1]⟩
  attrs := [(bpAttr, "oid:0x3a")]

/-- An FDB entry that decodes but whose bridge-port id is unknown. -/
def orphanE : FdbScanEntry where
  decoded := some ⟨30, [9, 9, 9, 9, 9, 9]⟩
  attrs := [(bpAttr, "oid:0xdead")]

/-- Witness for C9: a resolving scan completes, and a scan containing an
unresolvable bridge-port id aborts with `KeyError`. -/
theorem fdb_update_total_iff_witness :
    (∃ r, fdbUpdateData fdbSt [goodE1] = Except.ok r) ∧
    fdbUpdateData fdbSt [goodE1, orphanE] = Except.error PyErr.keyError :=
  ⟨((fdb_update_total_iff fdbSt [goodE1] (by decide) (by decide)).1).mpr (by decide),
   (fdb_update_total_iff fdbSt [goodE1, orphanE] (by decide) (by decide)).2 (by decide)⟩

/-- Counterexample to C5: scanning `[goodE1, badE, goodE2]`, the JSON decode
failure on `badE` stops the loop; the rebuilt snapshot holds only the rows
scanned before it, and the well-formed entry `goodE2` (vlan 20) is absent,
contradicting "processing continues with the remaining FDB entries". -/
theorem fdb_decode_failure_cex :
    fdbUpdateData fdbSt [goodE1, badE, goodE2]
      = Except.ok ([([10, 1, 2, 3, 4, 5, 6], some 1)], [[10, 1, 2, 3, 4, 5, 6]]) ∧
    fdb_vlanmac ⟨20, [6, 5, 4, 3, 2, 1]⟩
      ∉ ([([10, 1, 2, 3, 4, 5, 6], some 1)] : List (SubID × Option Nat)).map Prod.fst :=
  ⟨rfl, by decide⟩

theorem fdbUpdateLoop_break (st : FdbState) (bad : FdbScanEntry)
    (rest : List FdbScanEntry) (hbad : bad.decoded = none) :
    ∀ (xs : List FdbScanEntry) (m : List (SubID × Option Nat)) (l : List SubID),
      fdbUpdateLoop st (xs ++ bad :: rest) m l = fdbUpdateLoop st xs m l := by
  intro xs
  induction xs with
  | nil =>
    intro m l
    simp only [List.nil_append, fdbUpdateLoop, hbad]
  | cons e xs' ih =>
    intro m l
    cases hd : e.decoded with
    | none => simp only [List.cons_append, fdbUpdateLoop, hd]
    | some fdb =>
      cases hv : e.attrs.lookup bpAttr with
      | none => simp only [List.cons_append, fdbUpdateLoop, hd, hv]
      | some v =>
        cases hbp : st.if_bpid_map.lookup (v.drop 6) with
        | none => simp only [List.cons_append, fdbUpdateLoop, hd, hv, hbp]
        | some p =>
          cases hname : st.if_id_map.lookup p with
          | none => simp only [List.cons_append, fdbUpdateLoop, hd, hv, hbp, hname]
          | some name =>
            simp only [List.cons_append, fdbUpdateLoop, hd, hv, hbp, hname]
            exact ih _ _

/-- C5 amended: when an FDB entry's key fails JSON decoding, `update_data`
logs the failure and BREAKS out of the scan: the rows processed before the
malformed entry are kept, and every remaining scanned entry — well-formed or
not — is dropped from the rebuilt snapshot, exactly as if the scan had ended
there. -/
theorem fdb_decode_failure_amended (st : FdbState) (good : List FdbScanEntry)
    (bad : FdbScanEntry) (rest : List FdbScanEntry) (hbad : bad.decoded = none) :
    fdbUpdateData st (good ++ bad :: rest) = fdbUpdateData st good := by
  unfold fdbUpdateData
  rw [fdbUpdateLoop_break st bad rest hbad good [] []]

/-- Witness for the amended C5 at the concrete scan `[goodE1, badE, goodE2]`. -/
theorem fdb_decode_failure_amended_witness :
    fdbUpdateData fdbSt ([goodE1] ++ badE :: [goodE2]) = fdbUpdateData fdbSt [goodE1] :=
  fdb_decode_failure_amended fdbSt [goodE1] badE [goodE2] rfl

/-- The collaborator reads of `ciscoEntityFruControlMIB.PowerStatusHandler`:
`psuNumR` is the outcome of `_getPsuNum()` (`Except.error` models any raised
exception, e.g. `int()` on an empty chassis field), and `presenceR` /
`statusR` are the per-PSU state-table reads of `_getPsuPresence` /
`_getPsuStatus`. -/
structure PsuState where
  psuNumR : Except Unit Nat
  presenceR : Nat → Except Unit Bool
  statusR : Nat → Except Unit Bool

/-- `PowerStatusHandler._getPsuIndex(sub_id)`: `None` on an empty or
longer-than-one sub-identifier; otherwise `sub_id[0]`, rejected (`None`)
when `_getPsuNum` raises or the index is outside `1..psu_num`. -/
def getPsuIndex (st : PsuState) (sub : List Nat) : Option Nat :=
  if sub = [] ∨ sub.length > 1 then none
  else
    let psu_index := sub.headD 0
    match st.psuNumR with
    | .error _ => none
    | .ok psu_num =>
      if psu_index < 1 ∨ psu_index > psu_num then none else some psu_index

/-- `PowerStatusHandler.get_next(sub_id)`: the empty sub-identifier returns
`(1,)` before anything else runs; otherwise `_getPsuIndex` then
`_getPsuNum` decide whether `(psu_index + 1,)` is still in range (Python
truthiness: a `None` or `0` index is falsy and yields `None`). -/
def psu_get_next (st : PsuState) (sub : List Nat) : Option (List Nat) :=
  if sub = [] then some [1]
  else
    match st.psuNumR with
    | .error _ => none
    | .ok psu_num =>
      match getPsuIndex st sub with
      | none => none
      | some i => if i ≠ 0 ∧ i + 1 ≤ psu_num then some [i + 1] else none

/-- `PowerStatusHandler.getPsuStatus(sub_id)`: `None` for an unresolvable
(or falsy) index; code 8 when the PSU is absent; else 2 (ok) or 7 (failed);
a raising presence/status read is caught and surfaces as `None`. -/
def getPsuStatus (st : PsuState) (sub : List Nat) : Option Nat :=
  match getPsuIndex st sub with
  | none => none
  | some i =>
    if i = 0 then none
    else
      match st.presenceR i with
      | .error _ => none
      | .ok presence =>
        if presence then
          match st.statusR i with
          | .error _ => none
          | .ok s => if s then some 2 else some 7
        else some 8

/-- C10: `PowerStatusHandler.get_next` on the empty sub-identifier returns
`(1,)` for every collaborator state — the chassis PSU count is not
consulted, including when it is zero or unobtainable — so a walk into the
PSU subtree always starts at index 1, and it is the value query at `(1,)`
that reports no data in those two degenerate cases. -/
theorem psu_get_next_empty (st : PsuState) :
    psu_get_next st [] = some [1]
    ∧ (st.psuNumR = Except.ok 0 → getPsuStatus st [1] = none)
    ∧ (∀ e, st.psuNumR = Except.error e → getPsuStatus st [1] = none) := by
  refine ⟨rfl, ?_, ?_⟩
  · intro h
    simp [getPsuStatus, getPsuIndex, h]
  · intro e h
    simp [getPsuStatus, getPsuIndex, h]

/-- Witness for C10 at concrete collaborator states: zero PSUs reported,
and `_getPsuNum` raising. -/
theorem psu_get_next_empty_witness :
    psu_get_next ⟨Except.ok 0, fun _ => Except.ok true, fun _ => Except.ok true⟩ [] = some [1]
    ∧ getPsuStatus ⟨Except.ok 0, fun _ => Except.ok true, fun _ => Except.ok true⟩ [1] = none
    ∧ psu_get_next ⟨Except.error (), fun _ => Except.ok true, fun _ => Except.ok true⟩ []
        = some [1]
    ∧ getPsuStatus ⟨Except.error (), fun _ => Except.ok true, fun _ => Except.ok true⟩ [1]
        = none :=
  ⟨(psu_get_next_empty ⟨Except.ok 0, fun _ => Except.ok true, fun _ => Except.ok true⟩).1,
   (psu_get_next_empty ⟨Except.ok 0, fun _ => Except.ok true,
      fun _ => Except.ok true⟩).2.1 rfl,
   (psu_get_next_empty ⟨Except.error (), fun _ => Except.ok true,
      fun _ => Except.ok true⟩).1,
   (psu_get_next_empty ⟨Except.error (), fun _ => Except.ok true,
      fun _ => Except.ok true⟩).2.2 () rfl⟩

end SonicSnmp
